import Mathlib

/-!
Shallow embedding of the ShadeShift data pipeline (`src/streamlit_app.py`).

The app reads a spreadsheet into a data frame, validates required columns,
coerces numeric columns, drops rows with missing critical values, derives
`Reach = TwFollowers + WebsiteViews`, removes rows with `Reach <= 0`,
expands the comma-delimited `Tags` field into a per-row `TagList`,
filters by Faction and by tag membership, and builds an Altair chart spec.

Rows are association lists from column name to cell value.  Cell values are
text, numbers, missing (NaN), or a list of strings (the `TagList` column
holds Python lists).  Numbers are modelled as `Int`: every numeric value
exercised by the pipeline contract is integral, and pandas float arithmetic
agrees with `Int` on them; `pd.to_numeric` is modelled by an integer-literal
parser (optional sign, digits, surrounding whitespace), with everything
unparseable degrading to missing exactly as `errors="coerce"` does.
-/

namespace ShadeShift

/-- A cell value of the data frame. -/
inductive Value where
  | text (s : String)
  | num (n : Int)
  | missing
  | strList (l : List String)
deriving DecidableEq

/-- True exactly on the missing (NaN) value. -/
def Value.isMissing : Value → Bool
  | .missing => true
  | _ => false

/-- Pandas series addition, used for `df["TwFollowers"] + df["WebsiteViews"]`:
numbers add, text concatenates, anything involving NaN is NaN. -/
def Value.add : Value → Value → Value
  | .num a, .num b => .num (a + b)
  | .text a, .text b => .text (a ++ b)
  | _, _ => .missing

/-- A data-frame row: association list from column name to value. -/
abbrev Row := List (String × Value)

/-- Reading a cell (`df[col]` for one row); an absent key is missing. -/
def getCol (r : Row) (c : String) : Value :=
  match r with
  | [] => .missing
  | (c', v) :: rest => if c' = c then v else getCol rest c

/-- Writing a cell (`df[col] = ...` for one row): replace in place when the
column exists, append it otherwise. -/
def setCol (r : Row) (c : String) (v : Value) : Row :=
  match r with
  | [] => [(c, v)]
  | (c', v') :: rest => if c' = c then (c, v) :: rest else (c', v') :: setCol rest c v

/-- Python `str.strip`: remove leading and trailing whitespace. -/
def strip (s : String) : String :=
  ⟨((s.data.dropWhile Char.isWhitespace).reverse.dropWhile Char.isWhitespace).reverse⟩

/-- Reads a run of decimal digits, accumulating their value; any non-digit
character makes the whole parse fail. -/
def parseDigitsAux (acc : Nat) : List Char → Option Nat
  | [] => some acc
  | c :: cs => if c.isDigit then parseDigitsAux (acc * 10 + (c.toNat - 48)) cs else none

/-- Parses an optionally signed integer literal with surrounding whitespace,
the numeric-literal fragment of what `pd.to_numeric` accepts. -/
def parseIntString (s : String) : Option Int :=
  match (strip s).data with
  | [] => none
  | '-' :: cs =>
      match cs with
      | [] => none
      | _ => (parseDigitsAux 0 cs).map (fun n => -(n : Int))
  | '+' :: cs =>
      match cs with
      | [] => none
      | _ => (parseDigitsAux 0 cs).map (fun n => (n : Int))
  | cs => (parseDigitsAux 0 cs).map (fun n => (n : Int))

/-- Models `pd.to_numeric(x, errors="coerce")` on one cell: numbers and NaN
pass through, text is parsed, anything unparseable becomes missing. -/
def to_numeric : Value → Value
  | .num n => .num n
  | .missing => .missing
  | .text s =>
      match parseIntString s with
      | some n => .num n
      | none => .missing
  | .strList _ => .missing

/-- The columns coerced to numeric and null-dropped (lines 36-41). -/
def numeric_columns : List String := ["Disposition", "TwFollowers", "WebsiteViews"]

/-- Lines 36-38: coerce the three numeric columns of one row.  The source
assigns column by column; the columns are distinct, so each coercion reads
the original value of its own column. -/
def coerceRow (r : Row) : Row :=
  setCol (setCol (setCol r "Disposition" (to_numeric (getCol r "Disposition")))
      "TwFollowers" (to_numeric (getCol r "TwFollowers")))
      "WebsiteViews" (to_numeric (getCol r "WebsiteViews"))

/-- Line 41, per row: `dropna(subset=...)` keeps a row iff none of the
critical columns is missing. -/
def keepRow (r : Row) : Bool :=
  numeric_columns.all (fun c => !(getCol r c).isMissing)

/-- Line 46, per row: `df["Reach"] = df["TwFollowers"] + df["WebsiteViews"]`. -/
def addReach (r : Row) : Row :=
  setCol r "Reach" (Value.add (getCol r "TwFollowers") (getCol r "WebsiteViews"))

/-- Line 49, per row: `df["Reach"] > 0`; NaN compares false in pandas. -/
def reachPositive (r : Row) : Bool :=
  match getCol r "Reach" with
  | .num n => decide (0 < n)
  | _ => false

/-- Splits a character list on commas, Python `x.split(",")`: the split on
an empty string is `[""]`, and a trailing comma yields a trailing `""`. -/
def splitCommaAux (cur : List Char) : List Char → List String
  | [] => [⟨cur.reverse⟩]
  | c :: cs => if c = ',' then ⟨cur.reverse⟩ :: splitCommaAux [] cs else splitCommaAux (c :: cur) cs

/-- Python `s.split(",")`. -/
def splitComma (s : String) : List String := splitCommaAux [] s.data

/-- Line 56: `[t.strip() for t in x.split(",") if t.strip() != ""]`. -/
def splitTags (s : String) : List String :=
  ((splitComma s).map strip).filter (fun t => t ≠ "")

/-- Line 55: `df["Tags"].fillna("")` — NaN becomes the empty string before
splitting.  A non-text, non-missing cell would raise in the source
(`.split` on a number); the data model declares `Tags` as text. -/
def fillnaTags : Value → String
  | .text s => s
  | _ => ""

/-- The tag list computed for one row (lines 55-57). -/
def rowTagList (r : Row) : List String := splitTags (fillnaTags (getCol r "Tags"))

/-- Lines 55-57, per row: store the computed list in the `TagList` column. -/
def setTagList (r : Row) : Row := setCol r "TagList" (.strList (rowTagList r))

/-- Reading back the `TagList` column as a list of strings. -/
def getTagList (r : Row) : List String :=
  match getCol r "TagList" with
  | .strList l => l
  | _ => []

/-- The whole cleaning stage, lines 36-57: coercion, null-drop on the
critical columns, Reach derivation, positivity filter, tag expansion. -/
def cleanRows (rows : List Row) : List Row :=
  ((((rows.map coerceRow).filter keepRow).map addReach).filter reachPositive).map setTagList

/-- Insertion step of the sort used to model Python `sorted`. -/
def insertLe {α : Type} (le : α → α → Bool) (x : α) : List α → List α
  | [] => [x]
  | y :: ys => if le x y then x :: y :: ys else y :: insertLe le x ys

/-- Insertion sort modelling Python `sorted` with comparison `le`. -/
def sortLe {α : Type} (le : α → α → Bool) : List α → List α
  | [] => []
  | x :: xs => insertLe le x (sortLe le xs)

/-- Lexicographic comparison of code-point lists. -/
def lexLe : List Nat → List Nat → Bool
  | [], _ => true
  | _ :: _, [] => false
  | a :: as, b :: bs => if a < b then true else if b < a then false else lexLe as bs

/-- Python string comparison: lexicographic on code points. -/
def strLe (a b : String) : Bool := lexLe (a.data.map Char.toNat) (b.data.map Char.toNat)

/-- First-occurrence deduplication, accumulating the values already seen;
models Python `set(...)` (as a membership-determined collection) and
`pandas.Series.unique` (which keeps first occurrences). -/
def uniqAux {α : Type} [DecidableEq α] (seen : List α) : List α → List α
  | [] => []
  | x :: xs => if x ∈ seen then uniqAux seen xs else x :: uniqAux (x :: seen) xs

/-- First-occurrence deduplication of a list. -/
def uniqueOf {α : Type} [DecidableEq α] (l : List α) : List α := uniqAux [] l

/-- Line 60: `sorted(set(tag for tags in df["TagList"] for tag in tags))`. -/
def all_unique_tags (rows : List Row) : List String :=
  sortLe strLe (uniqueOf ((rows.map getTagList).flatten))

/-- A total comparison on cell values, used only to present the faction
option list in a deterministic order (the source sorts for display; no
contract depends on the order, only on membership). -/
def Value.leB : Value → Value → Bool
  | .missing, _ => true
  | .num _, .missing => false
  | .num a, .num b => decide (a ≤ b)
  | .num _, .text _ => true
  | .num _, .strList _ => true
  | .text _, .missing => false
  | .text _, .num _ => false
  | .text a, .text b => strLe a b
  | .text _, .strList _ => true
  | .strList _, .missing => false
  | .strList _, .num _ => false
  | .strList _, .text _ => false
  | .strList a, .strList b => decide (a.length ≤ b.length)

/-- Line 71: `sorted(df["Faction"].dropna().unique())`. -/
def all_factions (rows : List Row) : List Value :=
  sortLe Value.leB
    (uniqueOf (((rows.map (fun r => getCol r "Faction"))).filter (fun v => !v.isMissing)))

/-- Line 77: `df = df[df["Faction"].isin(selected_factions)]`. -/
def factionFilter (selected : List Value) (rows : List Row) : List Row :=
  rows.filter (fun r => decide (getCol r "Faction" ∈ selected))

/-- Lines 90-91: the tag filter runs only when some tags are selected
(Python truthiness of the list); a row passes when any selected tag occurs
in its tag list. -/
def tagFilter (selected : List String) (rows : List Row) : List Row :=
  if selected = [] then rows
  else rows.filter (fun r => selected.any (fun t => decide (t ∈ getTagList r)))

/-- The declarative chart description built in lines 108-157. -/
structure ChartSpec where
  xField : String
  xTitle : String
  xDomainLo : Int
  xDomainHi : Int
  yField : String
  yTitle : String
  yLogScale : Bool
  tooltip : List String
  markIsImage : Bool
  urlField : Option String
  colorRule : Option (Int → String)

/-- Lines 141-145: `alt.condition("datum.Disposition < 0", red, blue)`. -/
def dispositionColor (d : Int) : String := if d < 0 then "red" else "blue"

/-- Line 124: the tooltip column list. -/
def tooltipFields : List String :=
  ["Name", "Faction", "Tags", "Disposition", "Reach", "TwFollowers", "WebsiteViews"]

/-- Lines 108-157: the chart spec as a function of the image toggle.  In
image mode points are drawn from the per-row `Image` URL and no color rule
is attached; in circle mode the binary Disposition color rule applies. -/
def buildChart (use_images : Bool) : ChartSpec :=
  { xField := "Disposition"
    xTitle := "Disposition (Left: -5, Right: +5)"
    xDomainLo := -5
    xDomainHi := 5
    yField := "Reach"
    yTitle := "Reach = TwFollowers + WebsiteViews (log scale)"
    yLogScale := true
    tooltip := tooltipFields
    markIsImage := use_images
    urlField := if use_images then some "Image" else none
    colorRule := if use_images then none else some dispositionColor }

/-- The uploaded table: declared column names plus the rows. -/
structure Table where
  cols : List String
  rows : List Row

/-- Lines 24-27: the required column names. -/
def required_columns : List String :=
  ["Name", "Faction", "Tags", "Disposition", "TwFollowers", "WebsiteViews"]

/-- Line 28: `[col for col in required_columns if col not in df.columns]`. -/
def missing_cols (t : Table) : List String :=
  required_columns.filter (fun c => decide (c ∉ t.cols))

/-- The observable outcome of one pipeline run. -/
inductive Outcome where
  | schemaError (missing : List String)
  | emptyWarning
  | chart (rows : List Row) (spec : ChartSpec)

/-- The whole pipeline of `main` for one uploaded table and one state of the
user selections: validation (lines 28-31), cleaning (36-57), faction filter
(77), tag filter (90-91), the empty-result warning (101-103), and the chart
(108-159). -/
def runPipeline (t : Table) (selF : List Value) (selT : List String) (use_images : Bool) :
    Outcome :=
  if missing_cols t ≠ [] then .schemaError (missing_cols t)
  else
    let cleaned := cleanRows t.rows
    let df1 := factionFilter selF cleaned
    let df2 := tagFilter selT df1
    if df2 = [] then .emptyWarning
    else .chart df2 (buildChart use_images)

end ShadeShift

namespace ShadeShift

/-! ### Basic lemmas about rows -/

theorem getCol_setCol_self (r : Row) (c : String) (v : Value) :
    getCol (setCol r c v) c = v := by
  induction r with
  | nil => simp [getCol, setCol]
  | cons p rest ih =>
    obtain ⟨c', v'⟩ := p
    by_cases h : c' = c
    · simp [getCol, setCol, h]
    · simp [getCol, setCol, h, ih]

theorem getCol_setCol_ne (r : Row) (c c' : String) (v : Value) (h : c' ≠ c) :
    getCol (setCol r c v) c' = getCol r c' := by
  induction r with
  | nil => simp [getCol, setCol, Ne.symm h]
  | cons p rest ih =>
    obtain ⟨a, w⟩ := p
    by_cases ha : a = c
    · subst ha
      simp [getCol, setCol, Ne.symm h]
    · simp [getCol, setCol, ha, ih]

/-! ### Lemmas about numeric coercion -/

theorem to_numeric_num_or_missing (v : Value) :
    (∃ n : Int, to_numeric v = .num n) ∨ to_numeric v = .missing := by
  cases v with
  | text s =>
    cases h : parseIntString s with
    | none => right; simp [to_numeric, h]
    | some n => left; exact ⟨n, by simp [to_numeric, h]⟩
  | num n => left; exact ⟨n, rfl⟩
  | missing => right; rfl
  | strList l => right; rfl

theorem to_numeric_idem (v : Value) : to_numeric (to_numeric v) = to_numeric v := by
  cases v with
  | text s => cases h : parseIntString s <;> simp [to_numeric, h]
  | num n => rfl
  | missing => rfl
  | strList l => rfl

/-! ### Reading columns through the cleaning stages -/

theorem getCol_coerceRow_disposition (r : Row) :
    getCol (coerceRow r) "Disposition" = to_numeric (getCol r "Disposition") := by
  unfold coerceRow
  rw [getCol_setCol_ne _ _ _ _ (by decide), getCol_setCol_ne _ _ _ _ (by decide),
    getCol_setCol_self]

theorem getCol_coerceRow_twfollowers (r : Row) :
    getCol (coerceRow r) "TwFollowers" = to_numeric (getCol r "TwFollowers") := by
  unfold coerceRow
  rw [getCol_setCol_ne _ _ _ _ (by decide), getCol_setCol_self]

theorem getCol_coerceRow_websiteviews (r : Row) :
    getCol (coerceRow r) "WebsiteViews" = to_numeric (getCol r "WebsiteViews") := by
  unfold coerceRow
  rw [getCol_setCol_self]

theorem getCol_addReach_reach (r : Row) :
    getCol (addReach r) "Reach" = Value.add (getCol r "TwFollowers") (getCol r "WebsiteViews") := by
  unfold addReach
  rw [getCol_setCol_self]

theorem getCol_addReach_ne (r : Row) (c : String) (h : c ≠ "Reach") :
    getCol (addReach r) c = getCol r c := by
  unfold addReach
  rw [getCol_setCol_ne _ _ _ _ h]

theorem getCol_setTagList_ne (r : Row) (c : String) (h : c ≠ "TagList") :
    getCol (setTagList r) c = getCol r c := by
  unfold setTagList
  rw [getCol_setCol_ne _ _ _ _ h]

/-- Every row surviving the cleaning stage has numeric values in the three
critical columns and a strictly positive Reach equal to their sum. -/
theorem mem_cleanRows_spec {rows : List Row} {r : Row} (h : r ∈ cleanRows rows) :
    ∃ a b c : Int,
      getCol r "Disposition" = .num a ∧ getCol r "TwFollowers" = .num b ∧
      getCol r "WebsiteViews" = .num c ∧ getCol r "Reach" = .num (b + c) ∧ 0 < b + c := by
  unfold cleanRows at h
  obtain ⟨r3, hr3, rfl⟩ := List.mem_map.mp h
  obtain ⟨hr3m, hpos⟩ := List.mem_filter.mp hr3
  obtain ⟨r2, hr2, rfl⟩ := List.mem_map.mp hr3m
  obtain ⟨hr2m, hkeep⟩ := List.mem_filter.mp hr2
  obtain ⟨r1, _, rfl⟩ := List.mem_map.mp hr2m
  simp only [keepRow, numeric_columns, List.all_cons, List.all_nil, Bool.and_true,
    Bool.and_eq_true, Bool.not_eq_true'] at hkeep
  obtain ⟨hkd, hkt, hkw⟩ := hkeep
  rw [getCol_coerceRow_disposition] at hkd
  rw [getCol_coerceRow_twfollowers] at hkt
  rw [getCol_coerceRow_websiteviews] at hkw
  rcases to_numeric_num_or_missing (getCol r1 "Disposition") with ⟨a, ha⟩ | hm
  · rcases to_numeric_num_or_missing (getCol r1 "TwFollowers") with ⟨b, hb⟩ | hm
    · rcases to_numeric_num_or_missing (getCol r1 "WebsiteViews") with ⟨c, hc⟩ | hm
      · refine ⟨a, b, c, ?_, ?_, ?_, ?_, ?_⟩
        · rw [getCol_setTagList_ne _ _ (by decide), getCol_addReach_ne _ _ (by decide),
            getCol_coerceRow_disposition, ha]
        · rw [getCol_setTagList_ne _ _ (by decide), getCol_addReach_ne _ _ (by decide),
            getCol_coerceRow_twfollowers, hb]
        · rw [getCol_setTagList_ne _ _ (by decide), getCol_addReach_ne _ _ (by decide),
            getCol_coerceRow_websiteviews, hc]
        · rw [getCol_setTagList_ne _ _ (by decide), getCol_addReach_reach,
            getCol_coerceRow_twfollowers, getCol_coerceRow_websiteviews, hb, hc]
          rfl
        · have hre : getCol (addReach (coerceRow r1)) "Reach" = .num (b + c) := by
            rw [getCol_addReach_reach, getCol_coerceRow_twfollowers,
              getCol_coerceRow_websiteviews, hb, hc]
            rfl
          unfold reachPositive at hpos
          rw [hre] at hpos
          simpa using hpos
      · rw [hm] at hkw; simp [Value.isMissing] at hkw
    · rw [hm] at hkt; simp [Value.isMissing] at hkt
  · rw [hm] at hkd; simp [Value.isMissing] at hkd

end ShadeShift

namespace ShadeShift

/-! ### Lemmas about the sort and deduplication helpers -/

theorem perm_insertLe {α : Type} (le : α → α → Bool) (x : α) (l : List α) :
    List.Perm (insertLe le x l) (x :: l) := by
  induction l with
  | nil => exact List.Perm.refl _
  | cons y ys ih =>
    by_cases h : le x y = true
    · rw [insertLe, if_pos h]
    · rw [insertLe, if_neg h]
      exact (ih.cons y).trans (List.Perm.swap x y ys)

theorem perm_sortLe {α : Type} (le : α → α → Bool) (l : List α) :
    List.Perm (sortLe le l) l := by
  induction l with
  | nil => exact List.Perm.refl _
  | cons x xs ih => exact (perm_insertLe le x (sortLe le xs)).trans (ih.cons x)

theorem mem_uniqAux {α : Type} [DecidableEq α] (l : List α) : ∀ (seen : List α) (a : α),
    a ∈ uniqAux seen l ↔ (a ∈ l ∧ a ∉ seen) := by
  induction l with
  | nil => intro seen a; simp [uniqAux]
  | cons x xs ih =>
    intro seen a
    by_cases h : x ∈ seen
    · rw [uniqAux, if_pos h, ih]
      constructor
      · rintro ⟨hx, hs⟩
        exact ⟨List.mem_cons_of_mem x hx, hs⟩
      · rintro ⟨hx, hs⟩
        rcases List.mem_cons.mp hx with rfl | hmem
        · exact absurd h hs
        · exact ⟨hmem, hs⟩
    · rw [uniqAux, if_neg h]
      constructor
      · intro hmem
        rcases List.mem_cons.mp hmem with rfl | hmem'
        · exact ⟨List.mem_cons_self a xs, h⟩
        · rw [ih] at hmem'
          obtain ⟨hx, hs⟩ := hmem'
          exact ⟨List.mem_cons_of_mem x hx, fun hc => hs (List.mem_cons_of_mem x hc)⟩
      · rintro ⟨hx, hs⟩
        by_cases hax : a = x
        · subst hax
          exact List.mem_cons_self a _
        · rcases List.mem_cons.mp hx with rfl | hmem'
          · exact absurd rfl hax
          · apply List.mem_cons_of_mem
            rw [ih]
            refine ⟨hmem', ?_⟩
            intro hc
            rcases List.mem_cons.mp hc with h1 | h2
            · exact hax h1
            · exact hs h2

theorem mem_uniqueOf {α : Type} [DecidableEq α] (l : List α) (a : α) :
    a ∈ uniqueOf l ↔ a ∈ l := by
  rw [uniqueOf, mem_uniqAux]
  simp

theorem nodup_uniqAux {α : Type} [DecidableEq α] (l : List α) : ∀ seen : List α,
    (uniqAux seen l).Nodup := by
  induction l with
  | nil => intro seen; simp [uniqAux]
  | cons x xs ih =>
    intro seen
    by_cases h : x ∈ seen
    · rw [uniqAux, if_pos h]
      exact ih seen
    · rw [uniqAux, if_neg h]
      refine List.nodup_cons.mpr ⟨?_, ih (x :: seen)⟩
      intro hc
      rw [mem_uniqAux] at hc
      exact hc.2 (List.mem_cons_self x seen)

theorem nodup_uniqueOf {α : Type} [DecidableEq α] (l : List α) : (uniqueOf l).Nodup :=
  nodup_uniqAux l []

theorem lexLe_total (as : List Nat) : ∀ bs : List Nat, lexLe as bs = false → lexLe bs as = true := by
  induction as with
  | nil => intro bs h; simp [lexLe] at h
  | cons a as ih =>
    intro bs h
    cases bs with
    | nil => rfl
    | cons b bs =>
      simp only [lexLe] at h ⊢
      by_cases hab : a < b
      · simp [hab] at h
      · by_cases hba : b < a
        · simp [hba]
        · have h' : lexLe as bs = false := by simpa [hab, hba] using h
          simp [hab, hba, ih bs h']

theorem lexLe_trans (as : List Nat) : ∀ bs cs : List Nat,
    lexLe as bs = true → lexLe bs cs = true → lexLe as cs = true := by
  induction as with
  | nil => intro bs cs _ _; rfl
  | cons a as ih =>
    intro bs cs h1 h2
    cases bs with
    | nil => simp [lexLe] at h1
    | cons b bs =>
      cases cs with
      | nil => simp [lexLe] at h2
      | cons c cs =>
        simp only [lexLe] at h1 h2 ⊢
        rcases Nat.lt_trichotomy a b with hab | hab | hab
        · rcases Nat.lt_trichotomy b c with hbc | hbc | hbc
          · simp [Nat.lt_trans hab hbc]
          · subst hbc
            simp [hab]
          · simp [Nat.lt_asymm hbc, hbc] at h2
        · subst hab
          have h1' : lexLe as bs = true := by simpa using h1
          rcases Nat.lt_trichotomy a c with hac | hac | hac
          · simp [hac]
          · subst hac
            have h2' : lexLe bs cs = true := by simpa using h2
            simpa using ih bs cs h1' h2'
          · simp [Nat.lt_asymm hac, hac] at h2
        · simp [Nat.lt_asymm hab, hab] at h1

theorem strLe_total (a b : String) (h : strLe a b = false) : strLe b a = true :=
  lexLe_total _ _ h

theorem strLe_trans (a b c : String) (h1 : strLe a b = true) (h2 : strLe b c = true) :
    strLe a c = true :=
  lexLe_trans _ _ _ h1 h2

theorem pairwise_insertLe {α : Type} (le : α → α → Bool)
    (htot : ∀ a b, le a b = false → le b a = true)
    (htr : ∀ a b c, le a b = true → le b c = true → le a c = true)
    (x : α) (l : List α) (hl : l.Pairwise (fun a b => le a b = true)) :
    (insertLe le x l).Pairwise (fun a b => le a b = true) := by
  induction l with
  | nil => simp [insertLe]
  | cons y ys ih =>
    obtain ⟨hy, hys⟩ := List.pairwise_cons.mp hl
    by_cases h : le x y = true
    · rw [insertLe, if_pos h]
      refine List.pairwise_cons.mpr ⟨?_, hl⟩
      intro z hz
      rcases List.mem_cons.mp hz with rfl | hz'
      · exact h
      · exact htr x y z h (hy z hz')
    · rw [insertLe, if_neg h]
      refine List.pairwise_cons.mpr ⟨?_, ih hys⟩
      intro z hz
      have hz2 : z = x ∨ z ∈ ys := List.mem_cons.mp ((perm_insertLe le x ys).mem_iff.mp hz)
      rcases hz2 with rfl | hz'
      · exact htot z y (Bool.eq_false_iff.mpr h)
      · exact hy z hz'

theorem pairwise_sortLe {α : Type} (le : α → α → Bool)
    (htot : ∀ a b, le a b = false → le b a = true)
    (htr : ∀ a b c, le a b = true → le b c = true → le a c = true)
    (l : List α) : (sortLe le l).Pairwise (fun a b => le a b = true) := by
  induction l with
  | nil => simp [sortLe]
  | cons x xs ih =>
    rw [sortLe]
    exact pairwise_insertLe le htot htr x _ ih

/-! ### Membership in the derived option lists -/

theorem mem_all_unique_tags (rows : List Row) (t : String) :
    t ∈ all_unique_tags rows ↔ ∃ r ∈ rows, t ∈ getTagList r := by
  rw [all_unique_tags, (perm_sortLe strLe _).mem_iff, mem_uniqueOf]
  simp [List.mem_flatten]

theorem mem_all_factions (rows : List Row) (v : Value) :
    v ∈ all_factions rows ↔ ((∃ r ∈ rows, getCol r "Faction" = v) ∧ v.isMissing = false) := by
  rw [all_factions, (perm_sortLe Value.leB _).mem_iff, mem_uniqueOf]
  simp [List.mem_filter]

end ShadeShift

namespace ShadeShift

/-! ### Sample data used by concrete witnesses and counterexamples -/

/-- A fully well-formed sample row. -/
def rowGood : Row :=
  [("Name", .text "n"), ("Faction", .text "f"), ("Tags", .text "a"),
   ("Disposition", .num 1), ("TwFollowers", .num 2), ("WebsiteViews", .num 3)]

/-- The cleaned form of `rowGood`. -/
def rowGoodClean : Row :=
  [("Name", .text "n"), ("Faction", .text "f"), ("Tags", .text "a"),
   ("Disposition", .num 1), ("TwFollowers", .num 2), ("WebsiteViews", .num 3),
   ("Reach", .num 5), ("TagList", .strList ["a"])]

/-- A sample row whose Faction cell is missing but whose numeric cells are
valid, so it survives cleaning. -/
def rowNoFaction : Row :=
  [("Name", .text "n"), ("Faction", .missing), ("Tags", .text "a"),
   ("Disposition", .num 1), ("TwFollowers", .num 2), ("WebsiteViews", .num 3)]

/-- The cleaned form of `rowNoFaction`. -/
def rowNoFactionClean : Row :=
  [("Name", .text "n"), ("Faction", .missing), ("Tags", .text "a"),
   ("Disposition", .num 1), ("TwFollowers", .num 2), ("WebsiteViews", .num 3),
   ("Reach", .num 5), ("TagList", .strList ["a"])]

/-- A sample row whose Name cell is missing but which survives cleaning. -/
def rowNoName : Row :=
  [("Name", .missing), ("Faction", .text "f"), ("Tags", .text "a"),
   ("Disposition", .num 1), ("TwFollowers", .num 2), ("WebsiteViews", .num 3)]

/-! ### The claims -/

/-- C1: for every input table that passes validation, every row remaining
after the cleaning stage has numeric, non-missing Disposition, TwFollowers
and WebsiteViews, and its Reach value, TwFollowers + WebsiteViews, is
strictly greater than zero. -/
theorem cleaning_invariant (t : Table) (_hv : missing_cols t = []) (r : Row)
    (hr : r ∈ cleanRows t.rows) :
    ∃ a b c : Int,
      getCol r "Disposition" = .num a ∧ getCol r "TwFollowers" = .num b ∧
      getCol r "WebsiteViews" = .num c ∧ getCol r "Reach" = .num (b + c) ∧ 0 < b + c :=
  mem_cleanRows_spec hr

/-- Witness for C1 at a concrete one-row table. -/
theorem cleaning_invariant_witness :
    (missing_cols ⟨required_columns, [rowGood]⟩ = [] ∧
      rowGoodClean ∈ cleanRows (Table.mk required_columns [rowGood]).rows) ∧
      (∃ a b c : Int,
        getCol rowGoodClean "Disposition" = .num a ∧
        getCol rowGoodClean "TwFollowers" = .num b ∧
        getCol rowGoodClean "WebsiteViews" = .num c ∧
        getCol rowGoodClean "Reach" = .num (b + c) ∧ 0 < b + c) :=
  ⟨⟨by decide, by decide⟩,
    cleaning_invariant ⟨required_columns, [rowGood]⟩ (by decide) rowGoodClean (by decide)⟩

/-- C2: whenever any required column is absent, the pipeline run ends in a
schema error immediately after validation, reporting exactly the required
columns absent from the table, no more and no fewer. -/
theorem validation_reports_missing (t : Table) (selF : List Value) (selT : List String)
    (ui : Bool) (h : missing_cols t ≠ []) :
    runPipeline t selF selT ui = .schemaError (missing_cols t) ∧
      ∀ c, c ∈ missing_cols t ↔ (c ∈ required_columns ∧ c ∉ t.cols) := by
  refine ⟨?_, ?_⟩
  · simp [runPipeline, h]
  · intro c
    simp [missing_cols, List.mem_filter]

/-- Witness for C2 at a concrete table lacking five required columns. -/
theorem validation_reports_missing_witness :
    missing_cols ⟨["Name"], []⟩ ≠ [] ∧
      runPipeline ⟨["Name"], []⟩ [] [] false = .schemaError (missing_cols ⟨["Name"], []⟩) :=
  ⟨by decide, (validation_reports_missing ⟨["Name"], []⟩ [] [] false (by decide)).1⟩

/-- C3: tag expansion splits the Tags text on commas, trims tokens, drops
empty tokens and keeps per-row duplicates ("a, b ,b," gives ["a","b","b"]);
the global unique-tag list holds exactly the tokens occurring in some row,
sorted and without duplicates. -/
theorem tag_expansion_spec :
    splitTags "a, b ,b," = ["a", "b", "b"] ∧
      ∀ rows : List Row,
        (∀ t, t ∈ all_unique_tags rows ↔ ∃ r ∈ rows, t ∈ getTagList r) ∧
        (all_unique_tags rows).Pairwise (fun a b => strLe a b = true) ∧
        (all_unique_tags rows).Nodup := by
  refine ⟨by decide, fun rows => ⟨mem_all_unique_tags rows, ?_, ?_⟩⟩
  · exact pairwise_sortLe strLe strLe_total strLe_trans _
  · exact ((perm_sortLe strLe _).nodup_iff).mpr (nodup_uniqueOf _)

/-- Counterexample to C4 as stated: on this cleaned table (one surviving row
whose Faction is missing) the default all-observed selections do not return
the identical row set. -/
theorem default_filters_not_identity :
    tagFilter (all_unique_tags (cleanRows [rowNoFaction]))
        (factionFilter (all_factions (cleanRows [rowNoFaction])) (cleanRows [rowNoFaction]))
      ≠ cleanRows [rowNoFaction] := by decide

/-- C4 (amended): on a cleaned table in which every row has a non-missing
Faction and a non-empty tag list, applying the Faction filter with all
observed factions selected and the tag filter with all observed tags
selected returns the identical row set. -/
theorem default_filters_identity (rows : List Row)
    (hF : ∀ r ∈ rows, (getCol r "Faction").isMissing = false)
    (hT : ∀ r ∈ rows, getTagList r ≠ []) :
    tagFilter (all_unique_tags rows) (factionFilter (all_factions rows) rows) = rows := by
  have hfac : factionFilter (all_factions rows) rows = rows := by
    rw [factionFilter, List.filter_eq_self]
    intro r hr
    rw [decide_eq_true_eq]
    exact (mem_all_factions rows _).mpr ⟨⟨r, hr, rfl⟩, hF r hr⟩
  rw [hfac, tagFilter]
  by_cases hsel : all_unique_tags rows = []
  · rw [if_pos hsel]
  · rw [if_neg hsel, List.filter_eq_self]
    intro r hr
    obtain ⟨t0, ht0⟩ : ∃ t0, t0 ∈ getTagList r := by
      cases hgl : getTagList r with
      | nil => exact absurd hgl (hT r hr)
      | cons t ts => exact ⟨t, by simp [hgl]⟩
    rw [List.any_eq_true]
    exact ⟨t0, (mem_all_unique_tags rows t0).mpr ⟨r, hr, ht0⟩, decide_eq_true ht0⟩

/-- Witness for the amended C4 at a concrete one-row cleaned table. -/
theorem default_filters_identity_witness :
    ((∀ r ∈ cleanRows [rowGood], (getCol r "Faction").isMissing = false) ∧
      (∀ r ∈ cleanRows [rowGood], getTagList r ≠ [])) ∧
      tagFilter (all_unique_tags (cleanRows [rowGood]))
          (factionFilter (all_factions (cleanRows [rowGood])) (cleanRows [rowGood]))
        = cleanRows [rowGood] :=
  ⟨⟨by decide, by decide⟩,
    default_filters_identity (cleanRows [rowGood]) (by decide) (by decide)⟩

/-- Counterexample to C5 as stated: a row whose Name cell is missing
survives cleaning, because the null-drop covers only Disposition,
TwFollowers and WebsiteViews. -/
theorem cleaning_keeps_null_name :
    ∃ r ∈ cleanRows [rowNoName], getCol r "Name" = Value.missing := by decide

/-- C5 (amended): after the cleaning stage no remaining row has a missing
value in Disposition, TwFollowers or WebsiteViews, the columns covered by
the null-drop; the other required columns can remain missing. -/
theorem cleaning_no_missing_critical (rows : List Row) (r : Row) (hr : r ∈ cleanRows rows) :
    (getCol r "Disposition").isMissing = false ∧
      (getCol r "TwFollowers").isMissing = false ∧
      (getCol r "WebsiteViews").isMissing = false := by
  obtain ⟨a, b, c, ha, hb, hc, _, _⟩ := mem_cleanRows_spec hr
  rw [ha, hb, hc]
  exact ⟨rfl, rfl, rfl⟩

/-- Witness for the amended C5 at a concrete cleaned row. -/
theorem cleaning_no_missing_critical_witness :
    rowGoodClean ∈ cleanRows [rowGood] ∧
      ((getCol rowGoodClean "Disposition").isMissing = false ∧
        (getCol rowGoodClean "TwFollowers").isMissing = false ∧
        (getCol rowGoodClean "WebsiteViews").isMissing = false) :=
  ⟨by decide, cleaning_no_missing_critical [rowGood] rowGoodClean (by decide)⟩

/-- C6: when validation passes and zero rows remain after cleaning and
filtering, the pipeline produces the neutral empty-result warning outcome
and builds no chart. -/
theorem empty_result_warning (t : Table) (selF : List Value) (selT : List String) (ui : Bool)
    (hv : missing_cols t = [])
    (he : tagFilter selT (factionFilter selF (cleanRows t.rows)) = []) :
    runPipeline t selF selT ui = .emptyWarning := by
  simp [runPipeline, hv, he]

/-- Witness for C6 at an empty but schema-complete table. -/
theorem empty_result_warning_witness :
    (missing_cols ⟨required_columns, []⟩ = [] ∧
      tagFilter [] (factionFilter [] (cleanRows (Table.mk required_columns []).rows)) = []) ∧
      runPipeline ⟨required_columns, []⟩ [] [] false = .emptyWarning :=
  ⟨⟨by decide, by decide⟩,
    empty_result_warning ⟨required_columns, []⟩ [] [] false (by decide) (by decide)⟩

/-- C7: numeric coercion is idempotent — coercing an already-coerced column
yields the same values as coercing once. -/
theorem to_numeric_idempotent (col : List Value) :
    (col.map to_numeric).map to_numeric = col.map to_numeric := by
  rw [List.map_map]
  apply List.map_congr_left
  intro v _
  exact to_numeric_idem v

/-- C8: in circle mode each point's color follows the binary threshold rule,
red exactly when Disposition < 0 and blue otherwise; in image mode the
chart draws points from the per-row Image URL field and carries no color
rule. -/
theorem chart_color_and_image_mode :
    ((buildChart false).markIsImage = false ∧ (buildChart false).urlField = none ∧
      (buildChart false).colorRule = some dispositionColor ∧
      ∀ d : Int, (dispositionColor d = "red" ↔ d < 0) ∧ (dispositionColor d = "blue" ↔ ¬ d < 0)) ∧
    ((buildChart true).markIsImage = true ∧ (buildChart true).urlField = some "Image" ∧
      (buildChart true).colorRule = none) := by
  refine ⟨⟨rfl, rfl, rfl, fun d => ⟨?_, ?_⟩⟩, rfl, rfl, rfl⟩
  · by_cases h : d < 0 <;> simp [dispositionColor, h]
  · by_cases h : d < 0 <;> simp [dispositionColor, h]

/-- C9: an empty tag selection skips the tag filter entirely, keeping every
row of the incoming table. -/
theorem empty_tag_selection_keeps_all (rows : List Row) : tagFilter [] rows = rows := by
  rw [tagFilter, if_pos rfl]

/-- C10: a row with missing Faction can survive cleaning, yet the Faction
filter always excludes it under the default selection: missing is never
among the observed faction options, so the row never matches the selected
set. -/
theorem missing_faction_excluded :
    (∃ r ∈ cleanRows [rowNoFaction], getCol r "Faction" = Value.missing) ∧
      ∀ (rows : List Row) (r : Row), r ∈ rows → getCol r "Faction" = Value.missing →
        (Value.missing ∉ all_factions rows ∧ r ∉ factionFilter (all_factions rows) rows) := by
  refine ⟨by decide, ?_⟩
  intro rows r hr hf
  have hnm : Value.missing ∉ all_factions rows := by
    intro hc
    have h2 := ((mem_all_factions rows Value.missing).mp hc).2
    simp [Value.isMissing] at h2
  refine ⟨hnm, ?_⟩
  intro hc
  rw [factionFilter] at hc
  have h2 := (List.mem_filter.mp hc).2
  rw [decide_eq_true_eq, hf] at h2
  exact hnm h2

/-- Witness for C10 at the concrete cleaned missing-Faction row. -/
theorem missing_faction_excluded_witness :
    rowNoFactionClean ∈ cleanRows [rowNoFaction] ∧
      getCol rowNoFactionClean "Faction" = Value.missing ∧
      rowNoFactionClean ∉ factionFilter (all_factions (cleanRows [rowNoFaction]))
        (cleanRows [rowNoFaction]) :=
  ⟨by decide, by decide,
    (missing_faction_excluded.2 (cleanRows [rowNoFaction]) rowNoFactionClean (by decide)
      (by decide)).2⟩

end ShadeShift
